import Mathlib

/-!
# Verification of the go-cfgw reconciliation and resilient-client subsystem

Shallow embedding of the core of `galpt/go-cfgw`:

* `internal/worker/worker.go` — the reconciliation orchestrator (`Run`,
  `createListsInChunks`) including the wirefilter expression builder;
* `internal/cf/client.go` — the resilient Cloudflare Gateway client
  (`doRequestWithRetry`, `DeleteAllOldRules`, `DeleteAllOldLists`,
  `CreateOrUpdateRule`, `CreateList`, ...).

Go strings here are Lean `String`s; all string constants involved are
ASCII, so Go's byte-indexed slicing (`s[:len(s)-4]`) is embedded as
character-indexed slicing on `String.data`.  Remote HTTP effects are
embedded as an explicit call trace (`Call`) produced while folding over a
mocked remote environment (`Env`), and log output relevant to the claims
is recorded as `LogEv` values.
-/

namespace Cfgw

/-! ## Wirefilter expression builder (worker.go, `Run`, lines 82–87 and 100–105)

The Go code builds
`wirefilterExpr += fmt.Sprintf("any(dns.domains[*] in $%s) or ", id)`
over `createdListIDs` and then strips the trailing `" or "` with
`wirefilterExpr[:len(wirefilterExpr)-4]`. -/

/-- One clause of the wirefilter expression:
`any(<field>[*] in $<id>)`, as produced by the `fmt.Sprintf` format
strings `"any(dns.domains[*] in $%s) or "` / `"any(net.sni.domains[*] in $%s) or "`
(without the trailing separator). -/
def wfClause (field id : String) : String :=
  "any(" ++ field ++ "[*] in $" ++ id ++ ")"

/-- Go byte-slice `s[:n]`; all strings involved are ASCII so byte index
equals character index. -/
def goSlicePrefix (s : String) (n : Nat) : String :=
  ⟨s.data.take n⟩

/-- The accumulation loop `for _, id := range createdListIDs { expr += ... }`
from `Run` (field abstracted: `dns.domains` for the DNS rule,
`net.sni.domains` for the SNI rule). -/
def wfLoop (field : String) (ids : List String) : String :=
  ids.foldl (fun acc id => acc ++ (wfClause field id ++ " or ")) ""

/-- The expression built by `Run`: the accumulation loop followed by
`expr[:len(expr)-4]`, which removes the trailing `" or "`. -/
def buildWirefilterExpr (field : String) (ids : List String) : String :=
  goSlicePrefix (wfLoop field ids) ((wfLoop field ids).data.length - 4)

/-- The expression as the spec words it: the `N` clauses joined by the
separator `" or "` (spec §4.3).  Stated via `List.intercalate` on
character data; compared against `buildWirefilterExpr`, which follows the
source. -/
def specWirefilterExpr (field : String) (ids : List String) : String :=
  ⟨List.intercalate " or ".data (ids.map (fun id => (wfClause field id).data))⟩

/-! ## Chunking (worker.go, `createListsInChunks`, lines 117–137) -/

/-- `chunks := int(math.Ceil(float64(total) / float64(size)))`.
Embedded as the exact ceiling division; the `float64` computation is
exact for every realistic list size (both operands far below 2^53). -/
def chunksCount (total size : Nat) : Nat :=
  (total + size - 1) / size

/-- The `i`-th chunk: `items[start:end]` with `start := i*size`,
`end := min ((i+1)*size) total` (the Go code clamps `end` to `total`). -/
def chunkAt (items : List String) (size i : Nat) : List String :=
  (items.take (min ((i + 1) * size) items.length)).drop (i * size)

/-- The chunk name: `fmt.Sprintf("%s - Chunk %d", baseName, i+1)` for the
`i`-th (0-based) chunk. -/
def chunkName (baseName : String) (i : Nat) : String :=
  baseName ++ " - Chunk " ++ toString (i + 1)

/-- All chunks the creation loop slices out, in loop order. -/
def chunkList (items : List String) (size : Nat) : List (List String) :=
  (List.range (chunksCount items.length size)).map (chunkAt items size)

/-! ## The remote model

Remote HTTP side effects are embedded as explicit call traces.  A mocked
remote environment (`Env`) supplies the listings the `GET` calls return,
the per-resource success of `DELETE` calls, and the decoded JSON bodies
the `POST /lists` calls return. -/

/-- A dynamically typed Go value (`any`), as far as the extraction code
in `createListsInChunks` inspects it: a string, a `map[string]any`, or
anything else (numbers, booleans, `nil`, arrays — all of which fail both
type assertions identically). -/
inductive GoVal where
  | str (s : String)
  | map (fields : List (String × GoVal))
  | other

/-- One remote API call, as issued by the client methods. -/
inductive Call where
  | getRules
  | getLists
  | deleteRule (id : String)
  | deleteList (id : String)
  | createList (name : String) (values : List String)
  | updateRule (id name traffic : String) (filters : List String) (blockPageEnabled : Bool)
  | createRule (name traffic : String) (filters : List String) (blockPageEnabled : Bool)
deriving DecidableEq

/-- `true` exactly on the rule-mutating calls (`POST /rules`, `PUT /rules/<id>`). -/
def Call.isRuleMutation : Call → Bool
  | .updateRule _ _ _ _ _ => true
  | .createRule _ _ _ _ => true
  | _ => false

/-- `true` exactly on the mutating calls (create/update/delete). -/
def Call.isMutation : Call → Bool
  | .getRules => false
  | .getLists => false
  | _ => true

/-- Log output relevant to the claims. -/
inductive LogEv where
  | warnLimit (total limit : Nat)
  | planChunks (chunks size : Nat)
  | dryRunCreate (name : String) (count : Nat)
deriving DecidableEq

/-- `true` exactly on the soft-limit warning log event. -/
def LogEv.isWarn : LogEv → Bool
  | .warnLimit _ _ => true
  | _ => false

/-- A rule as it appears in a `GET /rules` listing (`rmap["id"]`,
`rmap["name"]`). -/
structure RuleRes where
  id : String
  name : String
deriving DecidableEq

/-- A list as it appears in a `GET /lists` listing. -/
structure ListRes where
  id : String
  name : String
deriving DecidableEq

/-- The mocked remote environment a run executes against. -/
structure Env where
  /-- Listing returned by `GetRules` during rule cleanup (`error` = the fetch itself fails). -/
  rulesListing : Except String (List RuleRes)
  /-- Listing returned by `GetLists` during list cleanup. -/
  listsListing : Except String (List ListRes)
  /-- Whether `DELETE /rules/<id>` succeeds. -/
  deleteRuleOk : String → Bool
  /-- Whether `DELETE /lists/<id>` succeeds. -/
  deleteListOk : String → Bool
  /-- Decoded body answered to the `i`-th `POST /lists` of the block-list loop. -/
  createBlockResp : Nat → Except String (List (String × GoVal))
  /-- Decoded body answered to the `i`-th `POST /lists` of the allow-list loop. -/
  createAllowResp : Nat → Except String (List (String × GoVal))
  /-- Listing returned by the `GetRules` call inside `CreateOrUpdateRule`. -/
  upsertListing : Except String (List RuleRes)
  /-- Result of `PUT /rules/<id>`. -/
  putRuleResult : String → Except String Unit
  /-- Result of `POST /rules`. -/
  postRuleResult : Except String Unit

/-- Go `strings.Contains(s, sub)` (substring test). -/
def goContains (s sub : String) : Bool :=
  decide (sub.data <:+: s.data)

/-- Go `strings.HasPrefix(s, pre)`. -/
def goHasPrefix (s pre : String) : Bool :=
  pre.data.isPrefixOf s.data

/-! ## Client operations (client.go) -/

/-- The name filter of `DeleteAllOldRules` (client.go lines 170–171):
`strings.Contains(ruleName, "CGPS Filter Lists") || strings.Contains(ruleName, "Go-CFGW Filter Lists")`. -/
def ruleNameMatchesOld (name : String) : Bool :=
  goContains name "CGPS Filter Lists" || goContains name "Go-CFGW Filter Lists"

/-- The name filter of `DeleteAllOldLists` (client.go lines 208–210):
`strings.Contains(listName, "CGPS") || strings.HasPrefix(listName, "Go-CFGW Block List") || strings.HasPrefix(listName, "Go-CFGW Allow List")`. -/
def listNameMatchesOld (name : String) : Bool :=
  goContains name "CGPS" || goHasPrefix name "Go-CFGW Block List"
    || goHasPrefix name "Go-CFGW Allow List"

/-- The deletion loop of `DeleteAllOldRules`: for each listed rule whose
name matches, issue `DELETE /rules/<id>`; a failed deletion is logged and
skipped (it only misses the `deleted` counter), a successful one is
counted. -/
def deleteOldRulesLoop (delOk : String → Bool) : List RuleRes → List Call × Nat
  | [] => ([], 0)
  | r :: rest =>
    let (calls, cnt) := deleteOldRulesLoop delOk rest
    if ruleNameMatchesOld r.name then
      (Call.deleteRule r.id :: calls, (if delOk r.id then 1 else 0) + cnt)
    else
      (calls, cnt)

/-- `DeleteAllOldRules` (client.go lines 158–191): fetch all rules (fatal
on failure), then delete every rule whose name matches the legacy/current
patterns, continuing past individual failures, and return `nil`. -/
def deleteAllOldRules (env : Env) : List Call × Except String Unit :=
  match env.rulesListing with
  | .error e => ([Call.getRules], .error ("get rules: " ++ e))
  | .ok rs => (Call.getRules :: (deleteOldRulesLoop env.deleteRuleOk rs).1, .ok ())

/-- The deletion loop of `DeleteAllOldLists`, mirroring `deleteOldRulesLoop`. -/
def deleteOldListsLoop (delOk : String → Bool) : List ListRes → List Call × Nat
  | [] => ([], 0)
  | l :: rest =>
    let (calls, cnt) := deleteOldListsLoop delOk rest
    if listNameMatchesOld l.name then
      (Call.deleteList l.id :: calls, (if delOk l.id then 1 else 0) + cnt)
    else
      (calls, cnt)

/-- `DeleteAllOldLists` (client.go lines 195–230). -/
def deleteAllOldLists (env : Env) : List Call × Except String Unit :=
  match env.listsListing with
  | .error e => ([Call.getLists], .error ("get lists: " ++ e))
  | .ok ls => (Call.getLists :: (deleteOldListsLoop env.deleteListOk ls).1, .ok ())

/-- `CreateOrUpdateRule` (client.go lines 233–256): fetch all rules; on
the first listed rule whose `name` equals the given name, `PUT
/rules/<id>` with the new expression/settings and return; if none
matches, `POST /rules`. -/
def createOrUpdateRule (env : Env) (name traffic : String) (filters : List String)
    (blockPageEnabled : Bool) : List Call × Except String Unit :=
  match env.upsertListing with
  | .error e => ([Call.getRules], .error e)
  | .ok rs =>
    match rs.find? (fun r => r.name == name) with
    | some r =>
      ([Call.getRules, Call.updateRule r.id name traffic filters blockPageEnabled],
       env.putRuleResult r.id)
    | none =>
      ([Call.getRules, Call.createRule name traffic filters blockPageEnabled],
       env.postRuleResult)

/-! ## Orchestrator (worker.go) -/

/-- The list-identifier extraction of `createListsInChunks` (worker.go
lines 151–154): `resp["result"]` must type-assert to `map[string]any` and
its `"id"` entry to `string`; any other shape silently yields no
identifier. -/
def extractListId (resp : List (String × GoVal)) : Option String :=
  match resp.lookup "result" with
  | some (GoVal.map fields) =>
    match fields.lookup "id" with
    | some (GoVal.str s) => some s
    | _ => none
  | _ => none

/-- The body of the chunk-creation loop of `createListsInChunks`
(worker.go lines 125–158) over the remaining chunk indices.  In dry-run
mode the creation is logged and skipped (no call, no identifier); a
failed `CreateList` aborts with an error; a successful one contributes
its extracted identifier — if any — in creation order. -/
def createChunksLoop (dryRun : Bool) (resp : Nat → Except String (List (String × GoVal)))
    (baseName : String) (items : List String) (size : Nat) :
    List Nat → List Call × List LogEv × Except String (List String)
  | [] => ([], [], .ok [])
  | i :: rest =>
    let name := chunkName baseName i
    let chunk := chunkAt items size i
    if dryRun then
      let (calls, logs, res) := createChunksLoop dryRun resp baseName items size rest
      (calls, LogEv.dryRunCreate name chunk.length :: logs, res)
    else
      match resp i with
      | .error e =>
        ([Call.createList name chunk], [], .error ("create list " ++ name ++ ": " ++ e))
      | .ok r =>
        let (calls, logs, res) := createChunksLoop dryRun resp baseName items size rest
        (Call.createList name chunk :: calls, logs,
         Except.map (fun ids => (extractListId r).toList ++ ids) res)

/-- `createListsInChunks` (worker.go lines 117–159): compute the chunk
count, log it, and run the creation loop over chunk indices `0..chunks-1`. -/
def createListsInChunks (dryRun : Bool) (resp : Nat → Except String (List (String × GoVal)))
    (size : Nat) (baseName : String) (items : List String) :
    List Call × List LogEv × Except String (List String) :=
  let chunks := chunksCount items.length size
  let (calls, logs, res) := createChunksLoop dryRun resp baseName items size (List.range chunks)
  (calls, LogEv.planChunks chunks size :: logs, res)

/-- Runtime configuration, as used by `Run`.  `listItemSize` is
`cfg.ListItemSize`; `listItemLimit` is the soft limit `cfg.ListItemLimit`
read in the pre-check (the field is referenced by worker.go but absent
from the provided `config.go` revision — modelled from the spec as "a
configured soft item-count limit"). -/
structure Config where
  listItemSize : Nat
  listItemLimit : Nat
  blockPageEnabled : Bool
  blockBasedOnSNI : Bool

/-- Steps 3–4 of `Run` (worker.go lines 51–70): chunked creation of the
block lists then the allow lists, each step skipped when its input set is
empty, identifiers accumulated in creation order. -/
def createPhase (env : Env) (size : Nat) (dryRun : Bool) (allow block : List String) :
    List Call × List LogEv × Except String (List String) :=
  let (c3, l3, r3) :=
    if block.length > 0 then
      createListsInChunks dryRun env.createBlockResp size "Go-CFGW Block List" block
    else ([], [], .ok [])
  match r3 with
  | .error e => (c3, l3, .error ("create block lists: " ++ e))
  | .ok blockIds =>
    let (c4, l4, r4) :=
      if allow.length > 0 then
        createListsInChunks dryRun env.createAllowResp size "Go-CFGW Allow List" allow
      else ([], [], .ok [])
    match r4 with
    | .error e => (c3 ++ c4, l3 ++ l4, .error ("create allow lists: " ++ e))
    | .ok allowIds => (c3 ++ c4, l3 ++ l4, .ok (blockIds ++ allowIds))

/-- Steps 5–8 of `Run` (worker.go lines 72–111): if no identifier was
collected, skip rule creation and succeed; otherwise build the DNS
wirefilter expression and upsert the DNS rule, then optionally the
SNI rule. -/
def rulePhase (env : Env) (blockPageEnabled blockBasedOnSNI : Bool) (ids : List String) :
    List Call × Except String Unit :=
  if ids.length == 0 then ([], .ok ())
  else
    match createOrUpdateRule env "Go-CFGW Filter Lists"
        (buildWirefilterExpr "dns.domains" ids) ["dns"] blockPageEnabled with
    | (c5, .error e) => (c5, .error ("create dns rule: " ++ e))
    | (c5, .ok _) =>
      if blockBasedOnSNI then
        match createOrUpdateRule env "Go-CFGW Filter Lists - SNI Based Filtering"
            (buildWirefilterExpr "net.sni.domains" ids) ["l4"] blockPageEnabled with
        | (c6, .error e) => (c5 ++ c6, .error ("create sni rule: " ++ e))
        | (c6, .ok _) => (c5 ++ c6, .ok ())
      else (c5, .ok ())

/-- `Run` (worker.go lines 26–115): soft-limit pre-check (warning only),
cleanup of old rules then old lists (each fatal on a failed fetch), a
settle pause (no remote call), chunked creation, then the rule phase. -/
def run (env : Env) (cfg : Config) (dryRun : Bool) (allow block : List String) :
    List Call × List LogEv × Except String Unit :=
  let totalItems := allow.length + block.length
  let warnLogs :=
    if totalItems > cfg.listItemLimit then [LogEv.warnLimit totalItems cfg.listItemLimit]
    else []
  match deleteAllOldRules env with
  | (c1, .error e) => (c1, warnLogs, .error ("cleanup old rules: " ++ e))
  | (c1, .ok _) =>
    match deleteAllOldLists env with
    | (c2, .error e) => (c1 ++ c2, warnLogs, .error ("cleanup old lists: " ++ e))
    | (c2, .ok _) =>
      match createPhase env cfg.listItemSize dryRun allow block with
      | (c34, l34, .error e) => (c1 ++ c2 ++ c34, warnLogs ++ l34, .error e)
      | (c34, l34, .ok ids) =>
        let (c56, r) := rulePhase env cfg.blockPageEnabled cfg.blockBasedOnSNI ids
        (c1 ++ c2 ++ c34 ++ c56, warnLogs ++ l34, r)

/-! ## Rate-limit handling and the retry loop (client.go, `doRequestWithRetry`) -/

/-- Go `strconv.Atoi`: an optional sign followed by one or more ASCII
digits; anything else is an error (`none`). -/
def goAtoi (s : String) : Option Int :=
  match s.data with
  | [] => none
  | c :: cs =>
    let signDigits : Bool × List Char :=
      if c = '-' then (true, cs)
      else if c = '+' then (false, cs)
      else (false, c :: cs)
    if signDigits.2.isEmpty || !signDigits.2.all Char.isDigit then none
    else
      let n : Nat := signDigits.2.foldl (fun acc d => acc * 10 + (d.toNat - '0'.toNat)) 0
      some (if signDigits.1 then -(n : Int) else (n : Int))

/-- An HTTP response as `doRequestWithRetry` inspects it.  `retryAfter`
is `resp.Header.Get("Retry-After")`, which is `""` when the header is
absent. -/
structure HttpResp where
  status : Nat
  retryAfter : String
  body : String

/-- An attempt error: `backoff.Permanent` short-circuits the retry
driver; everything else is retried. -/
inductive AttemptErr where
  | retryable (msg : String)
  | permanent (msg : String)
deriving DecidableEq

/-- The rate-limit cooperation of `doRequestWithRetry` (client.go lines
62–75): on a 429 whose `Retry-After` header is non-empty and parses with
`strconv.Atoi`, the client sleeps
`time.Duration(secs)*time.Second + 500*time.Millisecond` before
returning the retryable error; otherwise it sleeps nothing extra.
Result: the synchronous sleep in milliseconds, if any. -/
def rateLimitWaitMs (ra : String) : Option Int :=
  if ra ≠ "" then
    match goAtoi ra with
    | some secs => some (secs * 1000 + 500)
    | none => none
  else none

/-- The response handling of one attempt inside `doRequestWithRetry`
(client.go lines 55–87): a 429 yields a cooperative sleep and the
retryable error `"rate limited: 429"`; any other status outside
`[200, 300)` yields a retryable error carrying the status and body; a
2xx succeeds with the body.  (The only `backoff.Permanent` error is a
request-construction failure, which happens before any response
exists.) -/
def attemptOutcome (r : HttpResp) : Option Int × Except AttemptErr String :=
  if r.status == 429 then
    (rateLimitWaitMs r.retryAfter, .error (.retryable "rate limited: 429"))
  else if r.status < 200 || 300 ≤ r.status then
    (none, .error (.retryable ("http " ++ toString r.status ++ ": " ++ r.body)))
  else
    (none, .ok r.body)

/-- `eb.MaxElapsedTime = 2 * time.Minute` (client.go line 92), in
milliseconds. -/
def maxElapsedTimeMs : Nat := 2 * 60 * 1000

/-- Modelled from the spec: the retry driver of the `backoff` dependency
(`backoff.Retry` with `backoff.NewExponentialBackOff()`, client.go lines
90–95), which is not part of this repository.  Per the spec's contract
(§4.1): each attempt runs; after a failed attempt the driver stops and
surfaces that attempt's error once the elapsed time exceeds the
configured budget (`MaxElapsedTime`), and otherwise sleeps the next
backoff interval and retries.  Here every attempt fails — `errs i` is
the error of attempt `i` — and `interval i` is the `i`-th backoff sleep
in milliseconds (positive: the exponential backoff starts at 500ms and
jitter multiplies by at least 0.5); `elapsed` accumulates the sleeps.
Returns the number of attempts performed and the surfaced error. -/
def retryLoop (errs : Nat → String) (interval : Nat → {n : Nat // 0 < n})
    (budget k elapsed : Nat) : Nat × String :=
  if h : budget < elapsed + (interval k).1 then (k + 1, errs k)
  else retryLoop errs interval budget (k + 1) (elapsed + (interval k).1)
termination_by budget + 1 - elapsed
decreasing_by
  have hpos := (interval k).2
  omega

/-- The total back-off sleep across attempts `k, k+1, ..., k+m-1`. -/
def sleptMs (interval : Nat → {n : Nat // 0 < n}) (k m : Nat) : Nat :=
  ((List.range m).map (fun j => (interval (k + j)).1)).sum

/-! ## Concrete environments for witnesses -/

/-- A happy-path environment: the rule listing holds one legacy CGPS
rule, the list listing is empty, deletions succeed, every list creation
returns `{"result": {"id": ...}}`, and no rule named like ours exists
yet. -/
def envOk : Env :=
  { rulesListing := .ok [⟨"r1", "CGPS Filter Lists"⟩]
    listsListing := .ok []
    deleteRuleOk := fun _ => true
    deleteListOk := fun _ => true
    createBlockResp := fun i =>
      .ok [("result", GoVal.map [("id", GoVal.str ("B" ++ toString i))])]
    createAllowResp := fun i =>
      .ok [("result", GoVal.map [("id", GoVal.str ("A" ++ toString i))])]
    upsertListing := .ok []
    putRuleResult := fun _ => .ok ()
    postRuleResult := .ok () }

/-- Like `envOk`, but every successful list creation answers a decoded
body with no `"result"` object at all — `{"success": true}`-shaped. -/
def envNoId : Env :=
  { envOk with
    createBlockResp := fun _ => .ok [("success", GoVal.other)]
    createAllowResp := fun _ => .ok [("success", GoVal.other)] }

/-- An environment whose rule listing holds a legacy rule, an unrelated
rule, and a current-generation rule. -/
def envMixedRules : Env :=
  { envOk with
    rulesListing := Except.ok [⟨"a", "CGPS Filter Lists"⟩, ⟨"b", "My unrelated rule"⟩,
      ⟨"c", "Go-CFGW Filter Lists - SNI Based Filtering"⟩] }

/-- An environment in which a rule named `"Go-CFGW Filter Lists"` already
exists when `CreateOrUpdateRule` queries the listing. -/
def envExistingRule : Env :=
  { envOk with
    upsertListing := Except.ok [⟨"id9", "Go-CFGW Filter Lists"⟩] }

/-- A default configuration: chunk size 1000, soft limit 300000, block
page off, SNI rule off. -/
def cfg0 : Config :=
  { listItemSize := 1000, listItemLimit := 300000
    blockPageEnabled := false, blockBasedOnSNI := false }

/-! # Theorems -/

/-! ### Basic lemmas about the expression builder -/

theorem data_append (a b : String) : (a ++ b).data = a.data ++ b.data := rfl

theorem wfLoop_eq (field : String) (ids : List String) (acc : String) :
    ids.foldl (fun acc id => acc ++ (wfClause field id ++ " or ")) acc
      = acc ++ ⟨(ids.map (fun id => (wfClause field id).data ++ " or ".data)).flatten⟩ := by
  induction ids generalizing acc with
  | nil =>
    simp only [List.foldl_nil, List.map_nil, List.flatten_nil]
    cases acc with
    | mk ad =>
      show String.mk ad = String.append ⟨ad⟩ ⟨[]⟩
      simp [String.append]
  | cons x xs ih =>
    simp only [List.foldl_cons, List.map_cons, List.flatten_cons]
    rw [ih]
    cases acc with
    | mk ad =>
      show String.append (String.append ⟨ad⟩ _) _ = String.append ⟨ad⟩ _
      simp [String.append, wfClause]

theorem flatten_map_append_sep (sep : List Char) (l : List (List Char)) (h : l ≠ []) :
    (l.map (fun c => c ++ sep)).flatten = List.intercalate sep l ++ sep := by
  induction l with
  | nil => exact absurd rfl h
  | cons x xs ih =>
    cases xs with
    | nil => simp [List.intercalate]
    | cons y ys =>
      have hne : (y :: ys : List (List Char)) ≠ [] := by simp
      simp only [List.map_cons, List.flatten_cons] at ih ⊢
      rw [ih hne]
      simp [List.intercalate, List.intersperse_cons₂, List.append_assoc]

theorem wfLoop_flatten (field : String) (ids : List String) :
    wfLoop field ids
      = ⟨(ids.map (fun id => (wfClause field id).data ++ " or ".data)).flatten⟩ := by
  have h := wfLoop_eq field ids ""
  rw [wfLoop, h]
  show String.append ⟨[]⟩ _ = _
  simp [String.append]

/-- **C1.** For every non-empty list of list identifiers and fixed field
path, the expression built by `Run`'s accumulation loop followed by the
`[:len-4]` trim equals the `N` clauses `any(<field>[*] in $<id_i>)` in
identifier order joined by `" or "`, with no leading or trailing
separator.  Determinism is immediate: `buildWirefilterExpr` is a pure
function of `(field, ids)`. -/
theorem buildWirefilterExpr_eq_spec (field : String) (ids : List String) (h : ids ≠ []) :
    buildWirefilterExpr field ids = specWirefilterExpr field ids := by
  have hmap : ids.map (fun id => (wfClause field id).data ++ " or ".data)
      = (ids.map (fun id => (wfClause field id).data)).map (fun c => c ++ " or ".data) := by
    simp [List.map_map]
  have hne : ids.map (fun id => (wfClause field id).data) ≠ [] := by
    simpa using h
  rw [buildWirefilterExpr, wfLoop_flatten, hmap, flatten_map_append_sep _ _ hne]
  show (⟨(List.intercalate " or ".data (ids.map fun id => (wfClause field id).data)
      ++ " or ".data).take _⟩ : String) = _
  rw [specWirefilterExpr]
  congr 1
  rw [List.length_append]
  have h4 : (" or ".data).length = 4 := rfl
  rw [h4, Nat.add_sub_cancel, List.take_left]

/-- Witness for **C1** at a concrete input: two identifiers under the
DNS field path. -/
theorem buildWirefilterExpr_eq_spec_witness :
    buildWirefilterExpr "dns.domains" ["idA", "idB"]
      = specWirefilterExpr "dns.domains" ["idA", "idB"] :=
  buildWirefilterExpr_eq_spec "dns.domains" ["idA", "idB"] (by decide)

/-! ### Chunking lemmas -/

theorem chunksCount_eq (total size : Nat) (ht : 0 < total) (hs : 0 < size) :
    chunksCount total size = (total - 1) / size + 1 := by
  rw [chunksCount]
  have h1 : total + size - 1 = (total - 1) + size := by omega
  rw [h1, Nat.add_div_right _ hs]

/-- A chunk is a bounded `take` of the corresponding `drop`: `items[start:end]`
with `end` clamped to `total` slices out at most `size` elements starting at
`i*size`. -/
theorem chunkAt_eq (l : List String) (s i : Nat) :
    chunkAt l s i = (l.drop (i * s)).take s := by
  rw [chunkAt]
  by_cases h : i * s ≤ min ((i + 1) * s) l.length
  · have hM : min ((i + 1) * s) l.length
        = i * s + (min ((i + 1) * s) l.length - i * s) := by omega
    rw [hM, ← List.take_drop]
    have hmin : min ((i + 1) * s) l.length - i * s
        = min s (l.length - i * s) := by
      rw [← Nat.sub_min_sub_right]
      congr 1
      rw [Nat.succ_mul]
      omega
    rw [hmin]
    rcases Nat.le_total s (l.length - i * s) with hle | hle
    · rw [Nat.min_eq_left hle]
    · rw [Nat.min_eq_right hle]
      rw [List.take_of_length_le (by simp), List.take_of_length_le (by simp [hle])]
  · have hMlt : min ((i + 1) * s) l.length < i * s := Nat.lt_of_not_le h
    have his : i * s ≤ (i + 1) * s := Nat.mul_le_mul_right s (Nat.le_succ i)
    have hlen : l.length < i * s := by
      rcases Nat.le_total ((i + 1) * s) l.length with hc | hc
      · rw [Nat.min_eq_left hc] at hMlt
        omega
      · rwa [Nat.min_eq_right hc] at hMlt
    rw [List.drop_of_length_le
        (le_of_lt (lt_of_le_of_lt (by rw [List.length_take]; exact Nat.min_le_left _ _) hMlt)),
      List.drop_of_length_le (le_of_lt hlen)]
    simp

theorem chunkAt_length_of_lt (l : List String) (s i : Nat)
    (ht : 0 < l.length) (hs : 0 < s) (hi : i + 1 < chunksCount l.length s) :
    (chunkAt l s i).length = s := by
  rw [chunkAt_eq, List.length_take, List.length_drop]
  rw [chunksCount_eq _ _ ht hs] at hi
  have hle : i + 1 ≤ (l.length - 1) / s := by omega
  have hmul := (Nat.le_div_iff_mul_le hs).1 hle
  rw [Nat.succ_mul] at hmul
  omega

theorem chunkAt_length_last (l : List String) (s : Nat)
    (ht : 0 < l.length) (hs : 0 < s) :
    (chunkAt l s (chunksCount l.length s - 1)).length
      = l.length - s * (chunksCount l.length s - 1) := by
  rw [chunkAt_eq, List.length_take, List.length_drop]
  rw [chunksCount_eq _ _ ht hs, Nat.add_sub_cancel]
  have h2 : l.length - 1 < (l.length - 1) / s * s + s := Nat.lt_div_mul_add hs
  have h3 : (l.length - 1) / s * s ≤ l.length - 1 := Nat.div_mul_le_self _ _
  rw [Nat.mul_comm s ((l.length - 1) / s)]
  set q := (l.length - 1) / s with hq
  set p := q * s with hp
  omega

theorem chunksCount_zero (s : Nat) : chunksCount 0 s = 0 := by
  rw [chunksCount]
  rcases s with _ | s
  · rfl
  · exact Nat.div_eq_of_lt (by omega)

theorem chunksCount_succ_of_pos (t s : Nat) (ht : 0 < t) (hs : 0 < s) :
    chunksCount t s = chunksCount (t - s) s + 1 := by
  rcases Nat.le_total t s with hle | hle
  · have h0 : t - s = 0 := by omega
    rw [h0, chunksCount_zero, chunksCount]
    have h2 : (t + s - 1) / s = 1 := by
      apply Nat.div_eq_of_lt_le
      · rw [Nat.one_mul]
        omega
      · rw [Nat.mul_comm, Nat.mul_add, Nat.mul_one]
        omega
    omega
  · rw [chunksCount, chunksCount]
    have h1 : t + s - 1 = (t - s + s - 1) + s := by omega
    rw [h1, Nat.add_div_right _ hs]

theorem flatten_drop_chunks (s : Nat) (hs : 0 < s) :
    ∀ (n : Nat) (l : List String), chunksCount l.length s = n →
      ((List.range n).map (fun i => (l.drop (i * s)).take s)).flatten = l := by
  intro n
  induction n with
  | zero =>
    intro l hl
    cases l with
    | nil => simp
    | cons x xs =>
      exfalso
      rw [chunksCount_eq _ _ (by simp) hs] at hl
      exact Nat.succ_ne_zero _ hl
  | succ n ih =>
    intro l hl
    have ht : 0 < l.length := by
      by_contra h
      have : l = [] := by
        cases l with
        | nil => rfl
        | cons x xs => simp at h
      rw [this] at hl
      simp [chunksCount_zero] at hl
    rw [List.range_succ_eq_map, List.map_cons, List.flatten_cons, List.map_map]
    have hrec : chunksCount (l.drop s).length s = n := by
      rw [List.length_drop]
      have := chunksCount_succ_of_pos l.length s ht hs
      omega
    have hmap : (List.range n).map ((fun i => (l.drop (i * s)).take s) ∘ Nat.succ)
        = (List.range n).map (fun i => ((l.drop s).drop (i * s)).take s) := by
      apply List.map_congr_left
      intro i _
      simp only [Function.comp]
      rw [List.drop_drop]
      have hss : Nat.succ i * s = s + i * s := by
        rw [Nat.succ_mul, Nat.add_comm]
      rw [hss]
    rw [hmap, ih (l.drop s) hrec]
    simp

/-- The chunks sliced out by the creation loop concatenate back to the
original item list. -/
theorem chunkList_flatten (items : List String) (size : Nat) (hs : 0 < size) :
    (chunkList items size).flatten = items := by
  rw [chunkList]
  have hmap : (List.range (chunksCount items.length size)).map (chunkAt items size)
      = (List.range (chunksCount items.length size)).map
          (fun i => (items.drop (i * size)).take size) := by
    apply List.map_congr_left
    intro i _
    exact chunkAt_eq items size i
  rw [hmap]
  exact flatten_drop_chunks size hs _ items rfl

/-! ### The creation loop -/

theorem createChunksLoop_ok (resp : Nat → Except String (List (String × GoVal)))
    (g : Nat → String) (base : String) (items : List String) (size : Nat)
    (hresp : ∀ i, ∃ r, resp i = .ok r ∧ extractListId r = some (g i)) :
    ∀ idxs : List Nat,
      createChunksLoop false resp base items size idxs
        = (idxs.map (fun i => Call.createList (chunkName base i) (chunkAt items size i)),
           [], .ok (idxs.map g)) := by
  intro idxs
  induction idxs with
  | nil => rfl
  | cons i rest ih =>
    obtain ⟨r, hr, hid⟩ := hresp i
    simp only [createChunksLoop, Bool.false_eq_true, if_false, hr, ih, hid, Except.map,
      List.map_cons, Option.toList, List.singleton_append]

/-- **C2.** For `total ≥ 1` entries and positive chunk size,
`createListsInChunks` slices exactly `⌈total/size⌉` chunks whose
concatenation is the original sequence; every chunk but possibly the
last has length `size` and the last has length `total - size*(chunks-1)`;
the `i`-th chunk is created under the name `"<basename> - Chunk <i+1>"`;
and the returned identifiers are collected in creation order. -/
theorem createListsInChunks_chunking (items : List String) (size : Nat) (base : String)
    (resp : Nat → Except String (List (String × GoVal))) (g : Nat → String)
    (hs : 0 < size) (ht : 0 < items.length)
    (hresp : ∀ i, ∃ r, resp i = .ok r ∧ extractListId r = some (g i)) :
    (chunkList items size).length = chunksCount items.length size
    ∧ (chunkList items size).flatten = items
    ∧ (∀ i, i + 1 < chunksCount items.length size → (chunkAt items size i).length = size)
    ∧ (chunkAt items size (chunksCount items.length size - 1)).length
        = items.length - size * (chunksCount items.length size - 1)
    ∧ (createListsInChunks false resp size base items).1
        = (List.range (chunksCount items.length size)).map
            (fun i => Call.createList (base ++ " - Chunk " ++ toString (i + 1))
              (chunkAt items size i))
    ∧ (createListsInChunks false resp size base items).2.2
        = .ok ((List.range (chunksCount items.length size)).map g) := by
  refine ⟨by simp [chunkList], chunkList_flatten items size hs,
    fun i hi => chunkAt_length_of_lt items size i ht hs hi,
    chunkAt_length_last items size ht hs, ?_, ?_⟩
  · rw [createListsInChunks,
      createChunksLoop_ok resp g base items size hresp (List.range (chunksCount items.length size))]
    rfl
  · rw [createListsInChunks,
      createChunksLoop_ok resp g base items size hresp (List.range (chunksCount items.length size))]

/-- Witness for **C2**: three entries with chunk size two under the
environment `envOk`, whose create calls all return an identifier. -/
theorem createListsInChunks_chunking_witness :
    (createListsInChunks false envOk.createBlockResp 2 "Go-CFGW Block List"
        ["a.com", "b.com", "c.com"]).2.2
      = .ok ["B0", "B1"] :=
  (createListsInChunks_chunking ["a.com", "b.com", "c.com"] 2 "Go-CFGW Block List"
    envOk.createBlockResp (fun i => "B" ++ toString i) (by decide) (by decide)
    (fun i => ⟨_, rfl, rfl⟩)).2.2.2.2.2

/-! ### Upsert (C3) -/

/-- **C3.** `CreateOrUpdateRule` first fetches all rules; if a listed
rule's name equals the given name exactly, it issues one update-by-id
(`PUT /rules/<id>` on the first match) carrying the new expression and
settings, and no create; if none matches, it issues one create
(`POST /rules`).  Name equality is the sole identity key: the match
predicate reads nothing but the rule name, and a matched rule
necessarily bears exactly the requested name. -/
theorem createOrUpdateRule_upsert (env : Env) (rs : List RuleRes) (name traffic : String)
    (filters : List String) (bpe : Bool) (hrs : env.upsertListing = .ok rs) :
    ((createOrUpdateRule env name traffic filters bpe).1.head? = some Call.getRules)
    ∧ (∀ r, rs.find? (fun r => r.name == name) = some r →
        (createOrUpdateRule env name traffic filters bpe).1
          = [Call.getRules, Call.updateRule r.id name traffic filters bpe])
    ∧ (rs.find? (fun r => r.name == name) = none →
        (createOrUpdateRule env name traffic filters bpe).1
          = [Call.getRules, Call.createRule name traffic filters bpe])
    ∧ (∀ r, rs.find? (fun r => r.name == name) = some r → r.name = name) := by
  refine ⟨?_, ?_, ?_, ?_⟩
  · simp only [createOrUpdateRule, hrs]
    cases hfind : rs.find? (fun r => r.name == name) <;> rfl
  · intro r hr
    simp only [createOrUpdateRule, hrs, hr]
  · intro hnone
    simp only [createOrUpdateRule, hrs, hnone]
  · intro r hr
    have := List.find?_some hr
    simpa using this

/-- Witness for **C3**: with one existing rule of the requested name, the
trace is exactly a fetch followed by an update-by-id (no create); the
`find?` hypothesis is discharged by evaluation. -/
theorem createOrUpdateRule_upsert_witness :
    (createOrUpdateRule envExistingRule "Go-CFGW Filter Lists" "expr" ["dns"] false).1
      = [Call.getRules, Call.updateRule "id9" "Go-CFGW Filter Lists" "expr" ["dns"] false] :=
  (createOrUpdateRule_upsert envExistingRule [⟨"id9", "Go-CFGW Filter Lists"⟩]
      "Go-CFGW Filter Lists" "expr" ["dns"] false rfl).2.1
    ⟨"id9", "Go-CFGW Filter Lists"⟩ (by decide)

/-! ### Bulk cleanup (C4) -/

theorem deleteOldRulesLoop_calls (delOk : String → Bool) (rs : List RuleRes) :
    (deleteOldRulesLoop delOk rs).1
      = (rs.filter (fun r => ruleNameMatchesOld r.name)).map (fun r => Call.deleteRule r.id) := by
  induction rs with
  | nil => rfl
  | cons r rest ih =>
    simp only [deleteOldRulesLoop, List.filter_cons]
    by_cases h : ruleNameMatchesOld r.name
    · simp [h, ih]
    · simp [h, ih]

theorem deleteOldListsLoop_calls (delOk : String → Bool) (ls : List ListRes) :
    (deleteOldListsLoop delOk ls).1
      = (ls.filter (fun l => listNameMatchesOld l.name)).map (fun l => Call.deleteList l.id) := by
  induction ls with
  | nil => rfl
  | cons l rest ih =>
    simp only [deleteOldListsLoop, List.filter_cons]
    by_cases h : listNameMatchesOld l.name
    · simp [h, ih]
    · simp [h, ih]

/-- **C4.** Bulk cleanup deletes exactly the resources whose names match
the legacy/current patterns (substring match for rules;
substring-or-prefix match for lists) and no others.  The issued `DELETE`
trace is the same for every per-deletion success function `deleteRuleOk`
/ `deleteListOk` — so an individual deletion failure never aborts the
remaining deletions — and both functions return success whenever the
listing was fetched, while a failed fetch makes the cleanup step return
an error. -/
theorem cleanup_deletes_exactly_matches (env : Env) :
    (∀ rs, env.rulesListing = .ok rs →
      (deleteAllOldRules env).1
        = Call.getRules
            :: (rs.filter (fun r => ruleNameMatchesOld r.name)).map (fun r => Call.deleteRule r.id)
      ∧ (deleteAllOldRules env).2 = .ok ())
    ∧ (∀ e, env.rulesListing = .error e →
        (deleteAllOldRules env).2 = .error ("get rules: " ++ e))
    ∧ (∀ ls, env.listsListing = .ok ls →
      (deleteAllOldLists env).1
        = Call.getLists
            :: (ls.filter (fun l => listNameMatchesOld l.name)).map (fun l => Call.deleteList l.id)
      ∧ (deleteAllOldLists env).2 = .ok ())
    ∧ (∀ e, env.listsListing = .error e →
        (deleteAllOldLists env).2 = .error ("get lists: " ++ e)) := by
  refine ⟨?_, ?_, ?_, ?_⟩
  · intro rs hrs
    constructor
    · simp only [deleteAllOldRules, hrs, deleteOldRulesLoop_calls]
    · simp only [deleteAllOldRules, hrs]
  · intro e he
    simp only [deleteAllOldRules, he]
  · intro ls hls
    constructor
    · simp only [deleteAllOldLists, hls, deleteOldListsLoop_calls]
    · simp only [deleteAllOldLists, hls]
  · intro e he
    simp only [deleteAllOldLists, he]

/-- Witness for **C4**: a listing with a legacy rule, a current-generation
rule, and an unrelated rule — exactly the two matching ones are deleted in
order, and the step succeeds. -/
theorem cleanup_deletes_exactly_matches_witness :
    (deleteAllOldRules envMixedRules).1
      = [Call.getRules, Call.deleteRule "a", Call.deleteRule "c"] := by
  have h := (cleanup_deletes_exactly_matches envMixedRules).1 _ rfl
  rw [h.1]
  rfl

/-! ### Rate-limit handling (C6) -/

/-- **C6.** A 429 response is a distinguished retryable failure.  When
the `Retry-After` header parses as an integer number of seconds, the
attempt sleeps exactly that many seconds plus 500 milliseconds before
handing the retryable error to the backoff driver; when the header is
absent (`""`) or unparsable, no extra sleep happens and the standard
backoff applies.  (`goAtoi "" = none`, so the empty-header case is the
`goAtoi r.retryAfter = none` disjunct.) -/
theorem attempt429_rate_limit (r : HttpResp) (h : r.status = 429) :
    (attemptOutcome r).2 = .error (.retryable "rate limited: 429")
    ∧ (∀ secs : Int, goAtoi r.retryAfter = some secs →
        (attemptOutcome r).1 = some (secs * 1000 + 500))
    ∧ (goAtoi r.retryAfter = none → (attemptOutcome r).1 = none) := by
  have h429 : (r.status == 429) = true := by
    rw [h]
    rfl
  refine ⟨?_, ?_, ?_⟩
  · simp only [attemptOutcome, h429, if_true]
  · intro secs hsecs
    have hne : ¬r.retryAfter = "" := by
      intro he
      rw [he] at hsecs
      exact Option.noConfusion hsecs
    simp only [attemptOutcome, h429, if_true, rateLimitWaitMs, hsecs, hne, ne_eq,
      not_false_eq_true, if_true]
  · intro hnone
    simp only [attemptOutcome, h429, if_true, rateLimitWaitMs, hnone]
    split <;> rfl

/-- Witness for **C6**: a 429 carrying `Retry-After: 2` sleeps
`2*1000 + 500` milliseconds and surfaces the retryable rate-limit
error. -/
theorem attempt429_rate_limit_witness :
    (attemptOutcome ⟨429, "2", ""⟩).2 = .error (.retryable "rate limited: 429")
    ∧ (attemptOutcome ⟨429, "2", ""⟩).1 = some (2 * 1000 + 500) :=
  ⟨(attempt429_rate_limit ⟨429, "2", ""⟩ rfl).1,
   (attempt429_rate_limit ⟨429, "2", ""⟩ rfl).2.1 2 (by decide)⟩

/-! ### Backoff budget (C7) -/

theorem retryLoop_last_aux (errs : Nat → String) (interval : Nat → {n : Nat // 0 < n}) :
    ∀ fuel budget k elapsed, budget + 1 - elapsed ≤ fuel →
      (retryLoop errs interval budget k elapsed).2
          = errs ((retryLoop errs interval budget k elapsed).1 - 1)
      ∧ k + 1 ≤ (retryLoop errs interval budget k elapsed).1 := by
  intro fuel
  induction fuel with
  | zero =>
    intro budget k elapsed hf
    have hpos := (interval k).2
    rw [retryLoop, dif_pos (by omega)]
    exact ⟨rfl, Nat.le_refl _⟩
  | succ n ih =>
    intro budget k elapsed hf
    rw [retryLoop]
    by_cases h : budget < elapsed + (interval k).1
    · rw [dif_pos h]
      exact ⟨rfl, Nat.le_refl _⟩
    · rw [dif_neg h]
      have hpos := (interval k).2
      have hrec := ih budget (k + 1) (elapsed + (interval k).1) (by omega)
      exact ⟨hrec.1, by omega⟩

theorem sleptMs_succ_left (interval : Nat → {n : Nat // 0 < n}) (k m : Nat) :
    sleptMs interval k (m + 1) = (interval k).1 + sleptMs interval (k + 1) m := by
  have hmap : (List.range m).map ((fun j => (interval (k + j)).1) ∘ Nat.succ)
      = (List.range m).map (fun j => (interval (k + 1 + j)).1) := by
    apply List.map_congr_left
    intro j _
    simp only [Function.comp]
    have hj : k + (j + 1) = k + 1 + j := by omega
    rw [hj]
  simp only [sleptMs, List.range_succ_eq_map, List.map_cons, List.sum_cons, List.map_map,
    Nat.add_zero, hmap]

theorem retryLoop_slept_aux (errs : Nat → String) (interval : Nat → {n : Nat // 0 < n}) :
    ∀ fuel budget k elapsed, budget + 1 - elapsed ≤ fuel → elapsed ≤ budget →
      elapsed + sleptMs interval k ((retryLoop errs interval budget k elapsed).1 - 1 - k)
        ≤ budget := by
  intro fuel
  induction fuel with
  | zero =>
    intro budget k elapsed hf he
    exfalso
    omega
  | succ n ih =>
    intro budget k elapsed hf he
    rw [retryLoop]
    by_cases h : budget < elapsed + (interval k).1
    · rw [dif_pos h]
      simp only [Nat.add_sub_cancel, Nat.sub_self]
      rw [sleptMs]
      simpa using he
    · rw [dif_neg h]
      have hpos := (interval k).2
      have hge := (retryLoop_last_aux errs interval (n + 1) budget (k + 1)
        (elapsed + (interval k).1) (by omega)).2
      have hrec := ih budget (k + 1) (elapsed + (interval k).1) (by omega) (by omega)
      set n' := (retryLoop errs interval budget (k + 1) (elapsed + (interval k).1)).1 with hn'
      have hm : n' - 1 - k = (n' - 1 - (k + 1)) + 1 := by omega
      rw [hm, sleptMs_succ_left]
      omega

/-- **C7.** Modelled from the spec (the retry driver is the `backoff`
dependency, configured here with `MaxElapsedTime = 2` minutes): when
every attempt fails with a retryable error, the loop performs finitely
many attempts `n ≥ 1`, the total back-off wait accumulated before the
final attempt never exceeds the 2-minute budget — so the loop stops
(rather than retrying forever) as soon as the budget is exceeded — and
the error surfaced to the caller is that of the last attempt. -/
theorem retryLoop_bounded_surfaces_last (errs : Nat → String)
    (interval : Nat → {n : Nat // 0 < n}) :
    ∃ n : Nat, 1 ≤ n
      ∧ retryLoop errs interval maxElapsedTimeMs 0 0 = (n, errs (n - 1))
      ∧ sleptMs interval 0 (n - 1) ≤ maxElapsedTimeMs := by
  have hlast := retryLoop_last_aux errs interval (maxElapsedTimeMs + 1)
    maxElapsedTimeMs 0 0 (by omega)
  have hslept := retryLoop_slept_aux errs interval (maxElapsedTimeMs + 1)
    maxElapsedTimeMs 0 0 (by omega) (by omega)
  refine ⟨(retryLoop errs interval maxElapsedTimeMs 0 0).1, hlast.2, ?_, ?_⟩
  · rcases hres : retryLoop errs interval maxElapsedTimeMs 0 0 with ⟨n, e⟩
    rw [hres] at hlast
    simp only [hres] at *
    rw [hlast.1]
  · simpa using hslept

/-! ### Shape lemmas about the traces and logs -/

theorem createChunksLoop_calls_shape (d : Bool)
    (resp : Nat → Except String (List (String × GoVal)))
    (base : String) (items : List String) (size : Nat) :
    ∀ idxs, ∀ c ∈ (createChunksLoop d resp base items size idxs).1,
      ∃ n v, c = Call.createList n v := by
  intro idxs
  induction idxs with
  | nil =>
    intro c hc
    simp [createChunksLoop] at hc
  | cons i rest ih =>
    intro c hc
    rw [createChunksLoop] at hc
    cases d with
    | true =>
      simp only [if_true] at hc
      exact ih c hc
    | false =>
      simp only [Bool.false_eq_true, if_false] at hc
      cases hresp : resp i with
      | error e =>
        rw [hresp] at hc
        simp only [List.mem_singleton] at hc
        exact ⟨_, _, hc⟩
      | ok r =>
        rw [hresp] at hc
        simp only [List.mem_cons] at hc
        rcases hc with hc | hc
        · exact ⟨_, _, hc⟩
        · exact ih c hc

theorem createChunksLoop_logs_shape (d : Bool)
    (resp : Nat → Except String (List (String × GoVal)))
    (base : String) (items : List String) (size : Nat) :
    ∀ idxs, ∀ ev ∈ (createChunksLoop d resp base items size idxs).2.1,
      ev.isWarn = false := by
  intro idxs
  induction idxs with
  | nil =>
    intro ev hev
    simp [createChunksLoop] at hev
  | cons i rest ih =>
    intro ev hev
    rw [createChunksLoop] at hev
    cases d with
    | true =>
      simp only [if_true, List.mem_cons] at hev
      rcases hev with hev | hev
      · rw [hev]
        rfl
      · exact ih ev hev
    | false =>
      simp only [Bool.false_eq_true, if_false] at hev
      cases hresp : resp i with
      | error e =>
        rw [hresp] at hev
        simp at hev
      | ok r =>
        rw [hresp] at hev
        exact ih ev hev

theorem createListsInChunks_calls_shape (d : Bool)
    (resp : Nat → Except String (List (String × GoVal)))
    (size : Nat) (base : String) (items : List String) :
    ∀ c ∈ (createListsInChunks d resp size base items).1, ∃ n v, c = Call.createList n v := by
  intro c hc
  rcases hl : createChunksLoop d resp base items size
      (List.range (chunksCount items.length size)) with ⟨calls, logs, res⟩
  rw [createListsInChunks, hl] at hc
  have := createChunksLoop_calls_shape d resp base items size
    (List.range (chunksCount items.length size)) c
  rw [hl] at this
  exact this hc

theorem createListsInChunks_logs_shape (d : Bool)
    (resp : Nat → Except String (List (String × GoVal)))
    (size : Nat) (base : String) (items : List String) :
    ∀ ev ∈ (createListsInChunks d resp size base items).2.1, ev.isWarn = false := by
  intro ev hev
  rcases hl : createChunksLoop d resp base items size
      (List.range (chunksCount items.length size)) with ⟨calls, logs, res⟩
  rw [createListsInChunks, hl] at hev
  simp only [List.mem_cons] at hev
  rcases hev with hev | hev
  · rw [hev]
    rfl
  · have := createChunksLoop_logs_shape d resp base items size
      (List.range (chunksCount items.length size)) ev
    rw [hl] at this
    exact this hev

theorem createPhase_calls_shape (env : Env) (size : Nat) (d : Bool)
    (allow block : List String) :
    ∀ c ∈ (createPhase env size d allow block).1, ∃ n v, c = Call.createList n v := by
  intro c hc
  rcases h3 : (if block.length > 0 then
      createListsInChunks d env.createBlockResp size "Go-CFGW Block List" block
    else ([], [], .ok [])) with ⟨c3, l3, r3⟩
  have hc3 : ∀ c ∈ c3, ∃ n v, c = Call.createList n v := by
    intro c hc
    by_cases hb : block.length > 0
    · rw [if_pos hb] at h3
      have := createListsInChunks_calls_shape d env.createBlockResp size "Go-CFGW Block List" block c
      rw [h3] at this
      exact this hc
    · rw [if_neg hb] at h3
      cases h3
      simp at hc
  rcases h4 : (if allow.length > 0 then
      createListsInChunks d env.createAllowResp size "Go-CFGW Allow List" allow
    else ([], [], .ok [])) with ⟨c4, l4, r4⟩
  have hc4 : ∀ c ∈ c4, ∃ n v, c = Call.createList n v := by
    intro c hc
    by_cases ha : allow.length > 0
    · rw [if_pos ha] at h4
      have := createListsInChunks_calls_shape d env.createAllowResp size "Go-CFGW Allow List" allow c
      rw [h4] at this
      exact this hc
    · rw [if_neg ha] at h4
      cases h4
      simp at hc
  rw [createPhase, h3] at hc
  cases r3 with
  | error e =>
    exact hc3 c hc
  | ok blockIds =>
    rw [h4] at hc
    cases r4 with
    | error e =>
      simp only [List.mem_append] at hc
      rcases hc with hc | hc
      · exact hc3 c hc
      · exact hc4 c hc
    | ok allowIds =>
      simp only [List.mem_append] at hc
      rcases hc with hc | hc
      · exact hc3 c hc
      · exact hc4 c hc

theorem createPhase_logs_shape (env : Env) (size : Nat) (d : Bool)
    (allow block : List String) :
    ∀ ev ∈ (createPhase env size d allow block).2.1, ev.isWarn = false := by
  intro ev hev
  rcases h3 : (if block.length > 0 then
      createListsInChunks d env.createBlockResp size "Go-CFGW Block List" block
    else ([], [], .ok [])) with ⟨c3, l3, r3⟩
  have hl3 : ∀ ev ∈ l3, LogEv.isWarn ev = false := by
    intro ev hev
    by_cases hb : block.length > 0
    · rw [if_pos hb] at h3
      have := createListsInChunks_logs_shape d env.createBlockResp size "Go-CFGW Block List" block ev
      rw [h3] at this
      exact this hev
    · rw [if_neg hb] at h3
      cases h3
      simp at hev
  rcases h4 : (if allow.length > 0 then
      createListsInChunks d env.createAllowResp size "Go-CFGW Allow List" allow
    else ([], [], .ok [])) with ⟨c4, l4, r4⟩
  have hl4 : ∀ ev ∈ l4, LogEv.isWarn ev = false := by
    intro ev hev
    by_cases ha : allow.length > 0
    · rw [if_pos ha] at h4
      have := createListsInChunks_logs_shape d env.createAllowResp size "Go-CFGW Allow List" allow ev
      rw [h4] at this
      exact this hev
    · rw [if_neg ha] at h4
      cases h4
      simp at hev
  rw [createPhase, h3] at hev
  cases r3 with
  | error e =>
    exact hl3 ev hev
  | ok blockIds =>
    rw [h4] at hev
    cases r4 with
    | error e =>
      simp only [List.mem_append] at hev
      rcases hev with hev | hev
      · exact hl3 ev hev
      · exact hl4 ev hev
    | ok allowIds =>
      simp only [List.mem_append] at hev
      rcases hev with hev | hev
      · exact hl3 ev hev
      · exact hl4 ev hev

theorem deleteAllOldRules_calls_shape (env : Env) :
    ∀ c ∈ (deleteAllOldRules env).1, c.isRuleMutation = false := by
  intro c hc
  rw [deleteAllOldRules] at hc
  cases hrs : env.rulesListing with
  | error e =>
    rw [hrs] at hc
    simp only [List.mem_singleton] at hc
    rw [hc]
    rfl
  | ok rs =>
    rw [hrs] at hc
    simp only [List.mem_cons] at hc
    rcases hc with hc | hc
    · rw [hc]
      rfl
    · rw [deleteOldRulesLoop_calls] at hc
      simp only [List.mem_map] at hc
      obtain ⟨r, _, hr⟩ := hc
      rw [← hr]
      rfl

theorem deleteAllOldLists_calls_shape (env : Env) :
    ∀ c ∈ (deleteAllOldLists env).1, c.isRuleMutation = false := by
  intro c hc
  rw [deleteAllOldLists] at hc
  cases hls : env.listsListing with
  | error e =>
    rw [hls] at hc
    simp only [List.mem_singleton] at hc
    rw [hc]
    rfl
  | ok ls =>
    rw [hls] at hc
    simp only [List.mem_cons] at hc
    rcases hc with hc | hc
    · rw [hc]
      rfl
    · rw [deleteOldListsLoop_calls] at hc
      simp only [List.mem_map] at hc
      obtain ⟨l, _, hl⟩ := hc
      rw [← hl]
      rfl

theorem rulePhase_nil (env : Env) (bpe sni : Bool) :
    rulePhase env bpe sni [] = ([], .ok ()) := rfl

/-! ### Empty identifier collection (C8) -/

/-- **C8.** Whenever the creation phase succeeds with an empty
identifier collection (e.g. all creations were dry-run or both input
sets were empty), the run skips rule creation entirely — its trace is
exactly the cleanup and creation calls, with no rule create or update —
and terminates successfully. -/
theorem run_empty_ids_skips_rule (env : Env) (cfg : Config) (dry : Bool)
    (allow block : List String)
    (h1 : (deleteAllOldRules env).2 = .ok ())
    (h2 : (deleteAllOldLists env).2 = .ok ())
    (h3 : (createPhase env cfg.listItemSize dry allow block).2.2 = .ok []) :
    (run env cfg dry allow block).2.2 = .ok ()
    ∧ (run env cfg dry allow block).1
        = (deleteAllOldRules env).1 ++ (deleteAllOldLists env).1
          ++ (createPhase env cfg.listItemSize dry allow block).1
    ∧ (∀ c ∈ (run env cfg dry allow block).1, c.isRuleMutation = false) := by
  have hm1 := deleteAllOldRules_calls_shape env
  have hm2 := deleteAllOldLists_calls_shape env
  have hm34 := createPhase_calls_shape env cfg.listItemSize dry allow block
  rcases hd1 : deleteAllOldRules env with ⟨c1, r1⟩
  rcases hd2 : deleteAllOldLists env with ⟨c2, r2⟩
  rcases hd3 : createPhase env cfg.listItemSize dry allow block with ⟨c34, l34, r34⟩
  rw [hd1] at h1 hm1
  rw [hd2] at h2 hm2
  rw [hd3] at h3 hm34
  simp only at h1 h2 h3 hm1 hm2 hm34
  subst h1 h2 h3
  simp only [run, hd1, hd2, hd3, rulePhase_nil, List.append_nil]
  refine ⟨trivial, trivial, ?_⟩
  intro c hc
  simp only [List.mem_append] at hc
  rcases hc with (hc | hc) | hc
  · exact hm1 c hc
  · exact hm2 c hc
  · obtain ⟨n, v, hnv⟩ := hm34 c hc
    rw [hnv]
    rfl

/-- Witness for **C8**: a dry run over a non-empty block set creates no
identifiers, so the run succeeds without any rule call. -/
theorem run_empty_ids_skips_rule_witness :
    (run envOk cfg0 true [] ["y.com"]).2.2 = .ok () :=
  (run_empty_ids_skips_rule envOk cfg0 true [] ["y.com"] rfl rfl rfl).1

/-! ### Soft item-count limit (C9) -/

theorem run_limit_indep (env : Env) (cfg : Config) (dry : Bool) (allow block : List String) :
    ∃ calls logs res, ∀ lim' : Nat,
      run env ⟨cfg.listItemSize, lim', cfg.blockPageEnabled, cfg.blockBasedOnSNI⟩
          dry allow block
        = (calls,
           (if allow.length + block.length > lim'
            then [LogEv.warnLimit (allow.length + block.length) lim'] else []) ++ logs,
           res)
      ∧ (∀ ev ∈ logs, ev.isWarn = false) := by
  have hlogs := createPhase_logs_shape env cfg.listItemSize dry allow block
  rcases hd1 : deleteAllOldRules env with ⟨c1, r1⟩
  rcases r1 with e | u
  · refine ⟨c1, [], Except.error ("cleanup old rules: " ++ e), fun lim' => ?_⟩
    constructor
    · simp only [run, hd1, List.append_nil]
    · intro ev hev
      simp at hev
  · rcases hd2 : deleteAllOldLists env with ⟨c2, r2⟩
    rcases r2 with e | u2
    · refine ⟨c1 ++ c2, [], Except.error ("cleanup old lists: " ++ e), fun lim' => ?_⟩
      constructor
      · simp only [run, hd1, hd2, List.append_nil]
      · intro ev hev
        simp at hev
    · rcases hd3 : createPhase env cfg.listItemSize dry allow block with ⟨c34, l34, r34⟩
      rw [hd3] at hlogs
      simp only at hlogs
      rcases r34 with e | ids
      · refine ⟨c1 ++ c2 ++ c34, l34, Except.error e, fun lim' => ?_⟩
        exact ⟨by simp only [run, hd1, hd2, hd3], hlogs⟩
      · rcases hd4 : rulePhase env cfg.blockPageEnabled cfg.blockBasedOnSNI ids with ⟨c56, r⟩
        refine ⟨c1 ++ c2 ++ c34 ++ c56, l34, r, fun lim' => ?_⟩
        exact ⟨by simp only [run, hd1, hd2, hd3, hd4], hlogs⟩

/-- **C9.** The pre-check is a warning only: when
`len(allow)+len(block)` exceeds the configured soft limit the run logs
the warning (and only then — no other step emits one), and the value of
the limit changes neither the calls issued nor the run's result. -/
theorem run_soft_limit_warning (env : Env) (cfg : Config) (dry : Bool)
    (allow block : List String) (lim' : Nat)
    (hgt : allow.length + block.length > cfg.listItemLimit) :
    LogEv.warnLimit (allow.length + block.length) cfg.listItemLimit
        ∈ (run env cfg dry allow block).2.1
    ∧ (run env ⟨cfg.listItemSize, lim', cfg.blockPageEnabled, cfg.blockBasedOnSNI⟩
          dry allow block).1
        = (run env cfg dry allow block).1
    ∧ (run env ⟨cfg.listItemSize, lim', cfg.blockPageEnabled, cfg.blockBasedOnSNI⟩
          dry allow block).2.2
        = (run env cfg dry allow block).2.2 := by
  obtain ⟨calls, logs, res, h⟩ := run_limit_indep env cfg dry allow block
  have hcfg : (⟨cfg.listItemSize, cfg.listItemLimit, cfg.blockPageEnabled,
      cfg.blockBasedOnSNI⟩ : Config) = cfg := rfl
  have hself := (h cfg.listItemLimit).1
  rw [hcfg] at hself
  refine ⟨?_, ?_, ?_⟩
  · rw [hself, if_pos hgt]
    exact List.mem_append_left _ (List.mem_singleton_self _)
  · rw [(h lim').1, hself]
  · rw [(h lim').1, hself]

/-- Witness for **C9**: two entries against a soft limit of one — the
warning is logged, and raising the limit to a thousand changes neither
the trace nor the result. -/
theorem run_soft_limit_warning_witness :
    LogEv.warnLimit 2 1
        ∈ (run envOk ⟨1000, 1, false, false⟩ true ["x.com"] ["y.com"]).2.1
    ∧ (run envOk ⟨1000, 1000, false, false⟩ true ["x.com"] ["y.com"]).1
        = (run envOk ⟨1000, 1, false, false⟩ true ["x.com"] ["y.com"]).1 :=
  ⟨(run_soft_limit_warning envOk ⟨1000, 1, false, false⟩ true ["x.com"] ["y.com"]
      1000 (by decide)).1,
   (run_soft_limit_warning envOk ⟨1000, 1, false, false⟩ true ["x.com"] ["y.com"]
      1000 (by decide)).2.1⟩

/-! ### Dry-run (C5) -/

/-- **C5** (code evaluation at the failing input).  With dry-run enabled
and one legacy rule in the remote listing, the run still issues the
cleanup calls — including the mutating `DELETE /rules/r1` — so the
claim's "no create, update, or delete network call is ever issued at any
step (including the cleanup steps)" is false of the code.  The rest of
the claim does hold on this input: chunk counts and names are computed
and logged, no identifier is collected, and no create or update call is
issued. -/
theorem dryRun_still_issues_deletes :
    (run envOk cfg0 true ["x.com"] ["y.com"]).1
      = [Call.getRules, Call.deleteRule "r1", Call.getLists]
    ∧ Call.deleteRule "r1" ∈ (run envOk cfg0 true ["x.com"] ["y.com"]).1
    ∧ (Call.deleteRule "r1").isMutation = true
    ∧ (run envOk cfg0 true ["x.com"] ["y.com"]).2.1
      = [LogEv.planChunks 1 1000, LogEv.dryRunCreate "Go-CFGW Block List - Chunk 1" 1,
         LogEv.planChunks 1 1000, LogEv.dryRunCreate "Go-CFGW Allow List - Chunk 1" 1]
    ∧ (run envOk cfg0 true ["x.com"] ["y.com"]).2.2 = .ok () := by
  refine ⟨by decide, by decide, rfl, by decide, rfl⟩

/-! ### Silently dropped identifiers (C10) -/

theorem createChunksLoop_none (resp : Nat → Except String (List (String × GoVal)))
    (base : String) (items : List String) (size : Nat)
    (hresp : ∀ i, ∃ r, resp i = .ok r ∧ extractListId r = none) :
    ∀ idxs : List Nat,
      createChunksLoop false resp base items size idxs
        = (idxs.map (fun i => Call.createList (chunkName base i) (chunkAt items size i)),
           [], .ok []) := by
  intro idxs
  induction idxs with
  | nil => rfl
  | cons i rest ih =>
    obtain ⟨r, hr, hid⟩ := hresp i
    simp only [createChunksLoop, Bool.false_eq_true, if_false, hr, ih, hid, Except.map,
      List.map_cons, Option.toList, List.nil_append]

/-- **C10.** When every (non-dry-run) `CreateList` call succeeds but its
decoded response carries no `"result"` object with a string `"id"`,
`createListsInChunks` still issues one create per chunk, returns
successfully, and collects no identifier at all; consequently (second
half, evaluated on the concrete environment `envNoId`) a run can create
lists, collect nothing, skip rule creation through the empty-collection
check, and "succeed" without ever issuing a rule call. -/
theorem createList_missing_id_drops_silently
    (resp : Nat → Except String (List (String × GoVal)))
    (size : Nat) (base : String) (items : List String)
    (hresp : ∀ i, ∃ r, resp i = .ok r ∧ extractListId r = none) :
    (createListsInChunks false resp size base items).2.2 = .ok []
    ∧ (createListsInChunks false resp size base items).1
        = (List.range (chunksCount items.length size)).map
            (fun i => Call.createList (chunkName base i) (chunkAt items size i))
    ∧ (run envNoId cfg0 false [] ["y.com"]).2.2 = .ok ()
    ∧ Call.createList "Go-CFGW Block List - Chunk 1" ["y.com"]
        ∈ (run envNoId cfg0 false [] ["y.com"]).1
    ∧ (∀ c ∈ (run envNoId cfg0 false [] ["y.com"]).1, c.isRuleMutation = false) := by
  refine ⟨?_, ?_, rfl, by decide, by decide⟩
  · rw [createListsInChunks,
      createChunksLoop_none resp base items size hresp
        (List.range (chunksCount items.length size))]
  · rw [createListsInChunks,
      createChunksLoop_none resp base items size hresp
        (List.range (chunksCount items.length size))]

/-- Witness for **C10**: a single-chunk creation whose response is
`{"success": true}`-shaped returns `ok` with an empty identifier
collection. -/
theorem createList_missing_id_drops_silently_witness :
    (createListsInChunks false envNoId.createBlockResp 1000 "Go-CFGW Block List"
        ["y.com"]).2.2
      = .ok [] :=
  (createList_missing_id_drops_silently envNoId.createBlockResp 1000 "Go-CFGW Block List"
    ["y.com"] (fun _ => ⟨_, rfl, rfl⟩)).1

end Cfgw
